import Mathlib

/-!
Verification development for the ocron daemon (src/ocrond.c).

The C program is shallowly embedded: machine integers become Nat with
explicit 64-bit masking where the C code relies on the width, the
crontab parser becomes a state-passing function on lists of characters,
and the next-fire search of update_job becomes a pure function on a
structure of broken-down local-time fields.  The platform pair
localtime_r / mktime is modelled as the bijection between a linear count
of minutes since 1900-01-01 00:00 local time and broken-down fields of
the proleptic Gregorian calendar with no DST shifts (the year field is
stored with the 1900 offset exactly as in struct tm, and 1900-01-01 was
a Monday, weekday 1).
-/

/-- MAX_LOOKAHEAD from config.def.h: day-advances allowed in update_job. -/
def MAX_LOOKAHEAD : Nat := 2000

/-- The all-ones pattern of a 64-bit word, the value of a filled-in
unrestricted field (tilde-zero assigned to the 64-bit minutes, hours and
mdays members of struct Job in parse_line). -/
def mask64 : Nat := 2 ^ 64 - 1

/-- The C expression (tilde-zero shifted left by s) truncated to 64 bits,
used by update_job to keep only mask bits at positions at or above s. -/
def highMask (s : Nat) : Nat := ((2 ^ 64 - 1) >>> s) <<< s

/-- Trailing-zero scan with explicit fuel; the fuel only has to exceed
the bit length of the argument, and the wrapper passes the argument
itself, which always suffices. -/
def ffs_aux : Nat → Nat → Nat
  | 0, _ => 0
  | fuel + 1, x =>
    if x = 0 then 0
    else if x % 2 = 1 then 1
    else ffs_aux fuel (x / 2) + 1

/-- ffsll / ffsl from strings.h: one plus the index of the least
significant set bit, or 0 when the argument is 0. -/
def ffs (x : Nat) : Nat := ffs_aux x x

/-- is_leap_year from src/ocrond.c lines 159-163.  The C remainder
operator truncates toward zero, which is Int.tmod. -/
def is_leap_year (year : Int) : Bool :=
  year.tmod 4 == 0 && (year.tmod 100 != 0 || year.tmod 400 == 0)

/-- days_in_month from src/ocrond.c lines 168-172; month ranges over
0..11 and year is the actual year without offset. -/
def days_in_month (month : Nat) (year : Int) : Nat :=
  if month ≠ 1 then 30 + ((month % 7 + 1) &&& 1)
  else 28 + (if is_leap_year year then 1 else 0)

/-- Broken-down local time, the fields of struct tm used by update_job.
tm_year carries the 1900 offset as in C; seconds are handled separately
because update_job zeroes them immediately. -/
structure Tm where
  tm_min : Nat
  tm_hour : Nat
  tm_mday : Nat
  tm_mon : Nat
  tm_year : Nat
  tm_wday : Nat
deriving DecidableEq, Repr

/-- struct Job from src/ocrond.c lines 35-46.  The five masks are the
bit patterns of the C integers viewed as unsigned; command holds the
decoded command buffer produced by parse_command (with the embedded NUL
that separates the command from its stdin data). -/
structure Job where
  minutes : Nat
  time : Nat
  command : List Char
  hours : Nat
  mdays : Nat
  pid : Nat
  months : Nat
  wdays : Nat
  lineno : Nat
deriving DecidableEq, Repr

/-- The C idiom (x shifted right by n, low bit kept, tested nonzero)
shared by the VALID_* macros. -/
def bitSet (x n : Nat) : Bool := (x >>> n) &&& 1 != 0

/-- VALID_HOUR macro, src/ocrond.c line 28. -/
def VALID_HOUR (job : Job) (hour : Nat) : Bool := bitSet job.hours hour

/-- VALID_MDAY macro, src/ocrond.c line 29. -/
def VALID_MDAY (job : Job) (mday : Nat) : Bool := bitSet job.mdays mday

/-- VALID_WDAY macro, src/ocrond.c line 30. -/
def VALID_WDAY (job : Job) (wday : Nat) : Bool := bitSet job.wdays wday

/-- VALID_DAY macro, src/ocrond.c line 31: the mday/wday disjunction. -/
def VALID_DAY (job : Job) (mday wday : Nat) : Bool :=
  VALID_MDAY job mday || VALID_WDAY job wday

/-- VALID_MONTH macro, src/ocrond.c line 32. -/
def VALID_MONTH (job : Job) (month : Nat) : Bool := bitSet job.months month

/-- VALID_DATE macro, src/ocrond.c line 33. -/
def VALID_DATE (job : Job) (mday wday month : Nat) : Bool :=
  VALID_DAY job mday wday && VALID_MONTH job month

/-- One iteration of the day-advancing statements in update_job's day
loop, src/ocrond.c lines 259-266: step the weekday modulo 7, step the
day of month, roll over month and year as needed. -/
def advance_day (tm : Tm) : Tm :=
  let wday := (tm.tm_wday + 1) % 7
  if tm.tm_mday + 1 > days_in_month tm.tm_mon (1900 + (tm.tm_year : Int)) then
    if tm.tm_mon + 1 ≥ 12 then
      { tm with tm_mday := 1, tm_mon := 0, tm_year := tm.tm_year + 1, tm_wday := wday }
    else
      { tm with tm_mday := 1, tm_mon := tm.tm_mon + 1, tm_wday := wday }
  else
    { tm with tm_mday := tm.tm_mday + 1, tm_wday := wday }

/-- The day/month/year do-while loop of update_job, src/ocrond.c lines
252-267.  The fuel counts the day-advances still allowed; the C code
increments a lookahead counter and bails out once it would exceed
MAX_LOOKAHEAD, so fuel 0 is the removal branch (lines 253-257), and the
loop with fuel f+1 first advances one day and then tests VALID_DATE. -/
def day_loop (job : Job) : Nat → Tm → Option Tm
  | 0, _ => none
  | fuel + 1, tm =>
    let tm' := advance_day tm
    if VALID_DATE job tm'.tm_mday tm'.tm_wday tm'.tm_mon then some tm'
    else day_loop job fuel tm'

/-- Entry into the day axis with the full lookahead budget. -/
def day_phase (job : Job) (tm : Tm) : Option Tm :=
  day_loop job MAX_LOOKAHEAD tm

/-- The hour axis of update_job, src/ocrond.c lines 239-249: when today
is a valid date, try the lowest hour bit at or after the next hour and
finish early; otherwise fall through to the day axis with the hour set
to the lowest bit of the hours mask. -/
def hour_phase (job : Job) (tm : Tm) (today_alright : Bool) : Option Tm :=
  if today_alright then
    let hours_left := job.hours &&& highMask (tm.tm_hour + 1)
    if hours_left ≠ 0 then some { tm with tm_hour := ffs hours_left - 1 }
    else day_phase job { tm with tm_hour := ffs job.hours - 1 }
  else day_phase job { tm with tm_hour := ffs job.hours - 1 }

/-- The field-level core of update_job, src/ocrond.c lines 210-271,
taking the broken-down form of now (with seconds already zeroed) and
returning the broken-down time to be recomposed by mktime, or none when
the day loop exhausts its lookahead and the job is removed. -/
def update_tm (job : Job) (tm : Tm) : Option Tm :=
  let today_alright := VALID_DATE job tm.tm_mday tm.tm_wday tm.tm_mon
  if today_alright && VALID_HOUR job tm.tm_hour then
    let minutes_left := job.minutes &&& highMask (tm.tm_min + 1)
    if minutes_left ≠ 0 then some { tm with tm_min := ffs minutes_left - 1 }
    else hour_phase job { tm with tm_min := ffs job.minutes - 1 } today_alright
  else hour_phase job { tm with tm_min := ffs job.minutes - 1 } today_alright

/-- Days in the year beginning at the given actual year. -/
def days_in_year (year : Int) : Nat :=
  365 + (if is_leap_year year then 1 else 0)

/-- Days from 1900-01-01 to the start of the year with the given 1900
offset. -/
def days_before_year : Nat → Nat
  | 0 => 0
  | t + 1 => days_before_year t + days_in_year (1900 + (t : Int))

/-- Days from the start of a year to the start of the given month 0..11
of that year. -/
def days_before_month (year : Int) : Nat → Nat
  | 0 => 0
  | m + 1 => days_before_month year m + days_in_month m year

/-- Day index of a broken-down date, counted from 1900-01-01 = day 0. -/
def days_since_epoch (tm : Tm) : Nat :=
  days_before_year tm.tm_year
    + days_before_month (1900 + (tm.tm_year : Int)) tm.tm_mon
    + (tm.tm_mday - 1)

/-- Minutes since 1900-01-01 00:00 of a broken-down time; this is the
linear instant the model's mktime assigns, and it normalizes
out-of-range hour and minute fields exactly as mktime does. -/
def time_of (tm : Tm) : Nat :=
  days_since_epoch tm * 1440 + tm.tm_hour * 60 + tm.tm_min

/-- Seconds since the model epoch: the model of mktime(&tm) with
tm_sec = 0, as performed at src/ocrond.c line 270. -/
def mktime_sec (tm : Tm) : Nat := time_of tm * 60

/-- The date reached from 1900-01-01 (a Monday, weekday 1) after the
given number of single-day advances; the model of the calendar part of
localtime_r. -/
def date_of_days : Nat → Tm
  | 0 => { tm_min := 0, tm_hour := 0, tm_mday := 1, tm_mon := 0, tm_year := 0, tm_wday := 1 }
  | n + 1 => advance_day (date_of_days n)

/-- Broken-down form of an absolute instant in seconds: the model of
localtime_r, inverse to mktime_sec on well-formed fields. -/
def decompose (secs : Nat) : Tm :=
  let m := secs / 60
  { date_of_days (m / 1440) with tm_min := m % 60, tm_hour := m / 60 % 24 }

/-- Result of one table-level update_job call. -/
structure UpdateOutcome where
  table : List Job
  written : Option Nat
  warned : Bool
deriving DecidableEq, Repr

/-- The table-level effect of update_job(idx, now), src/ocrond.c lines
210-271: on success the job's time member is overwritten with the
recomposed instant; on lookahead exhaustion a warning is logged and the
job is removed by copying the last job into its slot and decrementing
the count (lines 254-256), with no time written. -/
def update_job (jobs : List Job) (idx : Nat) (now : Tm) : UpdateOutcome :=
  match jobs.get? idx with
  | none => ⟨jobs, none, false⟩
  | some job =>
    match update_tm job now with
    | some tm' =>
      ⟨jobs.set idx { job with time := mktime_sec tm' }, some (mktime_sec tm'), false⟩
    | none =>
      ⟨(jobs.set idx (jobs.getD (jobs.length - 1) job)).take (jobs.length - 1), none, true⟩

/-- The control-flow condition under which update_job reaches its day
loop: neither the minute early exit (valid date and hour with a minute
bit left today) nor the hour early exit (valid date with an hour bit
left today) fires. -/
def reaches_day_axis (job : Job) (tm : Tm) : Bool :=
  let ta := VALID_DATE job tm.tm_mday tm.tm_wday tm.tm_mon
  !(ta && VALID_HOUR job tm.tm_hour && (job.minutes &&& highMask (tm.tm_min + 1) != 0))
    && !(ta && (job.hours &&& highMask (tm.tm_hour + 1) != 0))

/-- Predicate on broken-down dates produced by localtime_r and preserved
by the day loop: the day of month is within the current month and the
month index is within range. -/
def date_wf (tm : Tm) : Prop :=
  1 ≤ tm.tm_mday ∧ tm.tm_mday ≤ days_in_month tm.tm_mon (1900 + (tm.tm_year : Int)) ∧
    tm.tm_mon ≤ 11

/-- Well-formedness of a full broken-down time as delivered by
localtime_r. -/
def tm_wf (tm : Tm) : Prop :=
  tm.tm_min ≤ 59 ∧ tm.tm_hour ≤ 23 ∧ date_wf tm

/- Crontab parsing, src/ocrond.c lines 287-495.  The C parser walks a
global cursor through the file buffer; the model passes the remaining
characters of the current line explicitly.  The end of the line (the
newline or NUL that the eol cursor points at) is the end of the list:
no field character matches past it because newline and NUL match no
digit, blank, or alias letter. -/

/-- isblank(3) in the default locale: space or horizontal tab. -/
def isblank (c : Char) : Bool := c = ' ' || c = '\t'

/-- eat_char, src/ocrond.c lines 289-297. -/
def eat_char (c : Char) (t : List Char) : Bool × List Char :=
  match t with
  | x :: rest => if x = c then (true, rest) else (false, t)
  | [] => (false, t)

/-- skip_space, src/ocrond.c lines 299-305: fails unless at least one
blank is present, then consumes the whole run. -/
def skip_space (t : List Char) : Option (List Char) :=
  match t with
  | x :: _ => if isblank x then some (t.dropWhile isblank) else none
  | [] => none

/-- parse_number, src/ocrond.c lines 307-319: a nonempty run of decimal
digits.  The C accumulator is an int; the model uses Nat, which agrees
on every value that fits. -/
def parse_number (t : List Char) : Option (Nat × List Char) :=
  match t with
  | c :: _ =>
    if c.isDigit then
      some ((t.takeWhile Char.isDigit).foldl (fun n d => n * 10 + (d.toNat - 48)) 0,
        t.dropWhile Char.isDigit)
    else none
  | [] => none

/-- Case-insensitive prefix match of an alias, the strncasecmp call at
src/ocrond.c line 333. -/
def alias_matches (a : String) (t : List Char) : Bool :=
  (t.take a.length).map Char.toLower == a.toList.map Char.toLower

/-- The alias search loop of parse_value, src/ocrond.c lines 331-338:
the first matching alias wins and its index is the value. -/
def alias_find : List String → Nat → List Char → Option (Nat × List Char)
  | [], _, _ => none
  | a :: rest, i, t =>
    if alias_matches a t then some (i, t.drop a.length) else alias_find rest (i + 1) t

/-- parse_value, src/ocrond.c lines 321-341. -/
def parse_value (aliases : List String) (t : List Char) : Option (Nat × List Char) :=
  if (t.headD ' ').isDigit then parse_number t else alias_find aliases 0 t

/-- The bit-setting loop body with explicit fuel; the loop variable
grows by step, which is at least 1 at every call site, so a fuel of
last + 1 - first iterations always completes the loop. -/
def range_bits_aux : Nat → Nat → Nat → Nat → Nat
  | 0, _, _, _ => 0
  | fuel + 1, first, last, step =>
    if first ≤ last then (1 <<< first) ||| range_bits_aux fuel (first + step) last step
    else 0

/-- The bit-setting loops of parse_range, src/ocrond.c lines 352-354 and
372-374: set every bit first, first+step, ... up to last.  Every call
has already checked step is at least 1. -/
def range_bits (first last step : Nat) : Nat :=
  if step = 0 then 0 else range_bits_aux (last + 1 - first) first last step

/-- The validation checks and final loop shared by the value branch of
parse_range, src/ocrond.c lines 368-376. -/
def range_checks (mn mx field first last step : Nat) (t : List Char) :
    Option (Nat × List Char) :=
  if first > last then none
  else if first < mn then none
  else if last > mx then none
  else if step < 1 then none
  else some (field ||| range_bits first last step, t)

/-- parse_range, src/ocrond.c lines 343-378.  A bare star consumes no
further input and adds no bits; star slash step fills min..max by step;
otherwise a value with optional dash value and optional slash step. -/
def parse_range (mn mx : Nat) (aliases : List String) (field : Nat) (t : List Char) :
    Option (Nat × List Char) :=
  match eat_char '*' t with
  | (true, t1) =>
    match eat_char '/' t1 with
    | (true, t2) =>
      match parse_number t2 with
      | none => none
      | some (step, t3) =>
        if step < 1 then none else some (field ||| range_bits mn mx step, t3)
    | (false, t2) => some (field, t2)
  | (false, t1) =>
    match parse_value aliases t1 with
    | none => none
    | some (first, t2) =>
      match eat_char '-' t2 with
      | (true, t3) =>
        match parse_value aliases t3 with
        | none => none
        | some (last, t4) =>
          match eat_char '/' t4 with
          | (true, t5) =>
            match parse_number t5 with
            | none => none
            | some (step, t6) => range_checks mn mx field first last step t6
          | (false, t5) => range_checks mn mx field first last 1 t5
      | (false, t3) => range_checks mn mx field first first 1 t3

/-- The comma loop of parse_field, src/ocrond.c lines 384-386.  Every
successful parse_range consumes at least one character (a star, a digit,
or an alias letter) and every comma consumes one more, so a fuel of one
plus the remaining length makes the fuelled loop agree with the
unbounded C loop on all inputs. -/
def parse_field_loop (mn mx : Nat) (aliases : List String) :
    Nat → Nat → List Char → Option (Nat × List Char)
  | 0, _, _ => none
  | fuel + 1, field, t =>
    match parse_range mn mx aliases field t with
    | none => none
    | some (field', t') =>
      match eat_char ',' t' with
      | (true, t'') => parse_field_loop mn mx aliases fuel field' t''
      | (false, _) => some (field', t')

/-- parse_field, src/ocrond.c lines 380-389: the comma-separated ranges
followed by mandatory whitespace. -/
def parse_field (mn mx : Nat) (aliases : List String) (t : List Char) :
    Option (Nat × List Char) :=
  match parse_field_loop mn mx aliases (t.length + 1) 0 t with
  | none => none
  | some (field, t') =>
    match skip_space t' with
    | none => none
    | some t'' => some (field, t'')

/-- The decoding loop of parse_command, src/ocrond.c lines 404-414, with
the output built in reverse in an accumulator.  An unescaped percent is
written as a newline; a percent preceded by a just-written backslash
deletes that backslash and is written literally. -/
def decode_go : List Char → Bool → List Char → List Char
  | acc, _, [] => acc.reverse
  | acc, esc, c :: rest =>
    if c = '%' then
      if esc then decode_go ('%' :: acc.tail) false rest
      else decode_go ('\n' :: acc) false rest
    else decode_go (c :: acc) (c == '\\') rest

/-- The full percent decoding of a command line remainder. -/
def decode (l : List Char) : List Char := decode_go [] false l

/-- The pstrchrnul write at src/ocrond.c line 419: overwrite the first
newline of the decoded buffer with NUL, splitting command from stdin
data. -/
def split_stdin : List Char → List Char
  | [] => []
  | c :: cs => if c = '\n' then '\x00' :: cs else c :: split_stdin cs

/-- parse_command, src/ocrond.c lines 391-422: fails on an empty
remainder, otherwise returns the decoded buffer with the first newline
replaced by NUL. -/
def parse_command (t : List Char) : Option (List Char) :=
  if t.isEmpty then none else some (split_stdin (decode t))

/-- The command string the child shell receives: the buffer up to its
first NUL, as read by execl at src/ocrond.c line 551. -/
def command_str (buf : List Char) : List Char := buf.takeWhile (· != '\x00')

/-- The stdin data of a job: the characters after the first NUL of its
command buffer, as extracted by create_infile at src/ocrond.c lines
505-506 (strchr to the NUL, plus one, then strlen bytes). -/
def infile_data (buf : List Char) : List Char :=
  ((buf.dropWhile (· != '\x00')).drop 1).takeWhile (· != '\x00')

/-- The wday coercion of parse_line, src/ocrond.c line 461: or bit 7
shifted down into bit 0. -/
def fold_wdays (w : Nat) : Nat := w ||| ((w >>> 7) &&& 1)

/-- Outcome of parsing one crontab line. -/
inductive ParseResult
  | blank
  | bad
  | job (j : Job)
deriving DecidableEq, Repr

/-- Month aliases, src/ocrond.c lines 51-54. -/
def months_aliases : List String :=
  ["Jan", "Feb", "Mar", "Apr", "May", "Jun", "Jul", "Aug", "Sep", "Oct", "Nov", "Dec"]

/-- Weekday aliases, src/ocrond.c lines 55-58. -/
def wdays_aliases : List String :=
  ["Sun", "Mon", "Tue", "Wed", "Thu", "Fri", "Sat"]

/-- Empty alias table, src/ocrond.c line 50. -/
def no_aliases : List String := []

/-- parse_line, src/ocrond.c lines 424-475: skip leading blanks, dismiss
comments and blank lines, parse the five fields and the command, then
coerce unrestricted fields (empty minutes, hours, months become the
all-ones word of their C member; wdays bit 7 is folded into bit 0; mdays
becomes all-ones only when both mdays and wdays are empty). -/
def parse_line (lineno : Nat) (line : List Char) : ParseResult :=
  let t := line.dropWhile isblank
  match t with
  | [] => .blank
  | c :: _ =>
    if c = '#' then .blank
    else
      match parse_field 0 59 no_aliases t with
      | none => .bad
      | some (minutes, t) =>
      match parse_field 0 23 no_aliases t with
      | none => .bad
      | some (hours, t) =>
      match parse_field 1 31 no_aliases t with
      | none => .bad
      | some (mdays, t) =>
      match parse_field 0 11 months_aliases t with
      | none => .bad
      | some (months, t) =>
      match parse_field 0 7 wdays_aliases t with
      | none => .bad
      | some (wdays0, t) =>
      match parse_command t with
      | none => .bad
      | some buf =>
        let minutes := if minutes = 0 then mask64 else minutes
        let hours := if hours = 0 then mask64 else hours
        let months := if months = 0 then 2 ^ 16 - 1 else months
        let wdays := fold_wdays wdays0
        let mdays := if mdays = 0 ∧ wdays = 0 then mask64 else mdays
        .job { minutes := minutes, time := 0, command := buf, hours := hours,
               mdays := mdays, pid := 0, months := months, wdays := wdays,
               lineno := lineno }

/-- create_infile, src/ocrond.c lines 497-526: the stdin data
materialized for a child is the trailing data of the command buffer of
the job at the given index. -/
def create_infile (jobs : List Job) (idx : Nat) : Option (List Char) :=
  (jobs.get? idx).map fun j => infile_data j.command

/-- The stdin source selected for the child spawned by run_job(idx):
the child calls create_infile(0), src/ocrond.c line 547, regardless of
idx. -/
def run_job_stdin (jobs : List Job) (idx : Nat) : Option (List Char) :=
  create_infile jobs 0

/-- Disposition of a reaped child as classified by the WIF* macros in
reap_zombies, src/ocrond.c lines 597-603. -/
inductive ChildStatus
  | exited (code : Nat)
  | signaled (sig : Nat)
  | stopped (sig : Nat)
  | unknown
deriving DecidableEq, Repr

/-- The pid-clearing scan of reap_zombies, src/ocrond.c lines 606-611:
zero the pid of the first job whose pid matches. -/
def clear_pid : List Job → Nat → List Job
  | [], _ => []
  | j :: rest, pid =>
    if j.pid = pid then { j with pid := 0 } :: rest else j :: clear_pid rest pid

/-- One iteration of the reap loop, src/ocrond.c lines 595-617: exited,
signaled, and stopped children all fall through to the clearing scan;
only an unrecognized status is skipped by the continue. -/
def reap_one (jobs : List Job) (pid : Nat) (status : ChildStatus) : List Job :=
  match status with
  | .unknown => jobs
  | _ => clear_pid jobs pid

/-- The events of enum Event, src/ocrond.c line 48. -/
inductive CEvent
  | reached_target
  | skipped_target
  | caught_signal
  | time_changed
  | nothing_happened
deriving DecidableEq, Repr

/-- What a main-loop dispatch can do to the daemon state. -/
inductive DispatchAction
  | run_and_reschedule
  | skip_and_reschedule
  | recalculate_all
  | reload_config
  | no_action
deriving DecidableEq, Repr

/-- The switch of the main event loop, src/ocrond.c lines 654-671:
reached target runs and reschedules, skipped target logs and
reschedules, a detected clock regression recalculates everything, and
every other event, a caught signal included, falls to the default break
and does nothing. -/
def dispatch_event : CEvent → DispatchAction
  | .reached_target => .run_and_reschedule
  | .skipped_target => .skip_and_reschedule
  | .time_changed => .recalculate_all
  | .caught_signal => .no_action
  | .nothing_happened => .no_action

/-- The signals the spec discusses. -/
inductive Sig
  | SIGCHLD
  | SIGHUP
  | SIGTERM
  | SIGINT
  | SIGQUIT
deriving DecidableEq, Repr

/-- Which of those signals has a handler installed by main,
src/ocrond.c lines 633-637: only SIGCHLD. -/
def has_handler : Sig → Bool
  | .SIGCHLD => true
  | _ => false

/- Concrete values used by several claims. -/

/-- The job produced by the crontab line star 5 star star star x. -/
def jobStarHour5 : Job :=
  { minutes := mask64, time := 0, command := ['x'], hours := 32, mdays := mask64,
    pid := 0, months := 2 ^ 16 - 1, wdays := 0, lineno := 1 }

/-- The job produced by the crontab line 0-59 5 star star star x. -/
def jobRange59Hour5 : Job :=
  { jobStarHour5 with minutes := 2 ^ 60 - 1 }

/-- 1900-01-05 (a Friday) at 05:59 local time. -/
def tmJan5_0559 : Tm :=
  { tm_min := 59, tm_hour := 5, tm_mday := 5, tm_mon := 0, tm_year := 0, tm_wday := 5 }

/-- The broken-down time update_tm hands to mktime for jobStarHour5 at
tmJan5_0559: minute 60 of hour 5. -/
def tmAfterC2 : Tm :=
  { tm_min := 60, tm_hour := 5, tm_mday := 5, tm_mon := 0, tm_year := 0, tm_wday := 5 }

/-- A job whose date constraint (day 31 of February) is never
satisfiable: minute 0, hour 0, mday mask bit 31, month mask bit 1. -/
def jobFeb31 : Job :=
  { minutes := 1, time := 0, command := [], hours := 1, mdays := 2 ^ 31,
    pid := 0, months := 2, wdays := 0, lineno := 1 }

/-- The model epoch 1900-01-01 00:00, a Monday. -/
def tmEpoch : Tm :=
  { tm_min := 0, tm_hour := 0, tm_mday := 1, tm_mon := 0, tm_year := 0, tm_wday := 1 }

/-- A second, unconstrained job used to exercise swap-removal. -/
def jobOther : Job :=
  { minutes := 1, time := 77, command := ['y'], hours := 1, mdays := mask64,
    pid := 0, months := 2 ^ 16 - 1, wdays := 0, lineno := 2 }

/-- Jobs identical except for the day-of-month mask: this one carries
the mask a bare star in the mday field produces after parse_line's
coercion (empty mdays and empty wdays, so mdays becomes all-ones). -/
def star_mdays_job (mins hrs mons : Nat) : Job :=
  { minutes := mins, time := 0, command := ['x'], hours := hrs, mdays := mask64,
    pid := 0, months := mons, wdays := 0, lineno := 1 }

/-- The same job with the mask an explicit 1-31 range produces. -/
def range_mdays_job (mins hrs mons : Nat) : Job :=
  { minutes := mins, time := 0, command := ['x'], hours := hrs,
    mdays := range_bits 1 31 1, pid := 0, months := mons, wdays := 0, lineno := 1 }

/-- Agreement of two broken-down times on the fields the day loop reads
and writes. -/
def date_eq (a b : Tm) : Prop :=
  a.tm_mday = b.tm_mday ∧ a.tm_mon = b.tm_mon ∧ a.tm_year = b.tm_year ∧
    a.tm_wday = b.tm_wday

/-- The job parsed from the line 0 0 star star star a percent x: its
command buffer is the letter a, a NUL, and the stdin byte x. -/
def jobPctA : Job :=
  { minutes := 1, time := 0, command := ['a', '\x00', 'x'], hours := 1,
    mdays := mask64, pid := 0, months := 2 ^ 16 - 1, wdays := 0, lineno := 1 }

/-- The job parsed from the line 0 0 star star star b percent y. -/
def jobPctB : Job :=
  { minutes := 1, time := 0, command := ['b', '\x00', 'y'], hours := 1,
    mdays := mask64, pid := 0, months := 2 ^ 16 - 1, wdays := 0, lineno := 1 }

/- Lemmas about the bit primitives. -/

theorem bitSet_eq_testBit (x n : Nat) : bitSet x n = Nat.testBit x n := by
  rw [bitSet, Nat.testBit_to_div_mod, Nat.and_one_is_mod, Nat.shiftRight_eq_div_pow]
  rcases Nat.mod_two_eq_zero_or_one (x / 2 ^ n) with h | h <;> simp [h]

theorem testBit_highMask (s i : Nat) :
    Nat.testBit (highMask s) i = (decide (s ≤ i) && decide (i < 64)) := by
  simp only [highMask, Nat.testBit_shiftLeft, Nat.testBit_shiftRight,
    Nat.testBit_two_pow_sub_one]
  by_cases h : s ≤ i
  · have h2 : s + (i - s) = i := by omega
    simp [h, h2, ge_iff_le]
  · simp [h, ge_iff_le]

theorem ffs_aux_pos (fuel x : Nat) (hx : x ≠ 0) (hf : 1 ≤ fuel) : 1 ≤ ffs_aux fuel x := by
  cases fuel with
  | zero => omega
  | succ f =>
    rw [ffs_aux, if_neg hx]
    split <;> omega

theorem ffs_aux_testBit :
    ∀ fuel x, x ≠ 0 → x ≤ fuel → Nat.testBit x (ffs_aux fuel x - 1) = true := by
  intro fuel
  induction fuel with
  | zero => intro x hx hle; omega
  | succ f ih =>
    intro x hx hle
    rw [ffs_aux, if_neg hx]
    by_cases hodd : x % 2 = 1
    · rw [if_pos hodd]
      simpa using hodd
    · rw [if_neg hodd]
      have hx2 : x / 2 ≠ 0 := by omega
      have hle2 : x / 2 ≤ f := by omega
      have hpos := ffs_aux_pos f (x / 2) hx2 (by omega)
      have ht := ih (x / 2) hx2 hle2
      have he : ffs_aux f (x / 2) + 1 - 1 = (ffs_aux f (x / 2) - 1) + 1 := by omega
      rw [he, Nat.testBit_add_one]
      exact ht

theorem testBit_ffs (x : Nat) (hx : x ≠ 0) : Nat.testBit x (ffs x - 1) = true :=
  ffs_aux_testBit x x hx (Nat.le_refl x)

/-- The index picked from a mask restricted to positions at or above s
is itself at or above s and is a set bit of the unrestricted mask. -/
theorem ffs_and_highMask (a s : Nat) (h : a &&& highMask s ≠ 0) :
    s ≤ ffs (a &&& highMask s) - 1 ∧
      Nat.testBit a (ffs (a &&& highMask s) - 1) = true := by
  have ht := testBit_ffs _ h
  rw [Nat.testBit_and, Bool.and_eq_true] at ht
  obtain ⟨hta, htm⟩ := ht
  rw [testBit_highMask, Bool.and_eq_true, decide_eq_true_eq, decide_eq_true_eq] at htm
  exact ⟨htm.1, hta⟩

/- Calendar lemmas. -/

theorem one_le_days_in_month (m : Nat) (y : Int) : 1 ≤ days_in_month m y := by
  rw [days_in_month]
  split
  · exact Nat.le_trans (by norm_num) (Nat.le_add_right 30 _)
  · exact Nat.le_trans (by norm_num) (Nat.le_add_right 28 _)

theorem days_in_month_le_31 (m : Nat) (y : Int) : days_in_month m y ≤ 31 := by
  rw [days_in_month]
  split
  · have hb : (m % 7 + 1) &&& 1 ≤ 1 := Nat.and_le_right
    omega
  · split <;> omega

theorem days_before_month_twelve (y : Int) :
    days_before_month y 12 = days_in_year y := by
  have e12 : days_before_month y 12 = days_before_month y 11 + days_in_month 11 y := rfl
  have e11 : days_before_month y 11 = days_before_month y 10 + days_in_month 10 y := rfl
  have e10 : days_before_month y 10 = days_before_month y 9 + days_in_month 9 y := rfl
  have e9 : days_before_month y 9 = days_before_month y 8 + days_in_month 8 y := rfl
  have e8 : days_before_month y 8 = days_before_month y 7 + days_in_month 7 y := rfl
  have e7 : days_before_month y 7 = days_before_month y 6 + days_in_month 6 y := rfl
  have e6 : days_before_month y 6 = days_before_month y 5 + days_in_month 5 y := rfl
  have e5 : days_before_month y 5 = days_before_month y 4 + days_in_month 4 y := rfl
  have e4 : days_before_month y 4 = days_before_month y 3 + days_in_month 3 y := rfl
  have e3 : days_before_month y 3 = days_before_month y 2 + days_in_month 2 y := rfl
  have e2 : days_before_month y 2 = days_before_month y 1 + days_in_month 1 y := rfl
  have e1 : days_before_month y 1 = 0 + days_in_month 0 y := rfl
  rw [e12, e11, e10, e9, e8, e7, e6, e5, e4, e3, e2, e1]
  rw [show days_in_month 0 y = 31 from rfl, show days_in_month 2 y = 31 from rfl,
    show days_in_month 3 y = 30 from rfl, show days_in_month 4 y = 31 from rfl,
    show days_in_month 5 y = 30 from rfl, show days_in_month 6 y = 31 from rfl,
    show days_in_month 7 y = 31 from rfl, show days_in_month 8 y = 30 from rfl,
    show days_in_month 9 y = 31 from rfl, show days_in_month 10 y = 30 from rfl,
    show days_in_month 11 y = 31 from rfl,
    show days_in_month 1 y = 28 + (if is_leap_year y then 1 else 0) from rfl,
    days_in_year]
  cases is_leap_year y <;> simp

/-- Advancing one day adds exactly one to the day index and preserves
date well-formedness. -/
theorem advance_day_spec (tm : Tm) (h : date_wf tm) :
    days_since_epoch (advance_day tm) = days_since_epoch tm + 1 ∧
      date_wf (advance_day tm) := by
  obtain ⟨h1, h2, h3⟩ := h
  rw [advance_day]
  split
  case isTrue hroll =>
    have hmd : tm.tm_mday = days_in_month tm.tm_mon (1900 + (tm.tm_year : Int)) := by
      omega
    split
    case isTrue hmon =>
      have hm11 : tm.tm_mon = 11 := by omega
      constructor
      · simp only [days_since_epoch, days_before_year]
        rw [show days_before_month (1900 + ((tm.tm_year + 1 : Nat) : Int)) 0 = 0 from rfl]
        rw [hm11] at hmd
        rw [show days_in_month 11 (1900 + (tm.tm_year : Int)) = 31 from rfl] at hmd
        have h12 := days_before_month_twelve (1900 + (tm.tm_year : Int))
        have h1112 : days_before_month (1900 + (tm.tm_year : Int)) 12 =
            days_before_month (1900 + (tm.tm_year : Int)) 11 +
              days_in_month 11 (1900 + (tm.tm_year : Int)) := rfl
        rw [show days_in_month 11 (1900 + (tm.tm_year : Int)) = 31 from rfl] at h1112
        rw [hm11]
        omega
      · exact ⟨Nat.le_refl 1, one_le_days_in_month 0 _, Nat.zero_le 11⟩
    case isFalse hmon =>
      constructor
      · simp only [days_since_epoch, days_before_month]
        have hpos := one_le_days_in_month tm.tm_mon (1900 + (tm.tm_year : Int))
        omega
      · exact ⟨Nat.le_refl 1, one_le_days_in_month (tm.tm_mon + 1) _,
          show tm.tm_mon + 1 ≤ 11 by omega⟩
  case isFalse hroll =>
    constructor
    · simp only [days_since_epoch]
      omega
    · exact ⟨show 1 ≤ tm.tm_mday + 1 by omega,
        show tm.tm_mday + 1 ≤ days_in_month tm.tm_mon (1900 + (tm.tm_year : Int)) by
          omega,
        h3⟩

theorem iterate_advance_wf (tm : Tm) (h : date_wf tm) :
    ∀ k, date_wf (advance_day^[k] tm) := by
  intro k
  induction k with
  | zero => simpa using h
  | succ n ih =>
    rw [Function.iterate_succ_apply']
    exact (advance_day_spec _ ih).2

/-- If every date reachable within the fuel is invalid, the day loop
runs out of fuel. -/
theorem day_loop_none (job : Job) :
    ∀ fuel tm,
      (∀ k, 1 ≤ k → k ≤ fuel →
        VALID_DATE job (advance_day^[k] tm).tm_mday (advance_day^[k] tm).tm_wday
          (advance_day^[k] tm).tm_mon = false) →
      day_loop job fuel tm = none := by
  intro fuel
  induction fuel with
  | zero => intro tm _; rfl
  | succ f ih =>
    intro tm h
    have h1 := h 1 (by omega) (by omega)
    rw [Function.iterate_one] at h1
    rw [day_loop]
    simp only [h1, if_false, Bool.false_eq_true]
    exact ih (advance_day tm) fun k hk1 hk2 => by
      have := h (k + 1) (by omega) (by omega)
      rwa [Function.iterate_succ_apply] at this

/-- A successful day loop strictly advances the day index and leaves
minute and hour untouched. -/
theorem day_loop_some_dse (job : Job) :
    ∀ fuel tm tm', date_wf tm → day_loop job fuel tm = some tm' →
      days_since_epoch tm + 1 ≤ days_since_epoch tm' ∧
        tm'.tm_min = tm.tm_min ∧ tm'.tm_hour = tm.tm_hour := by
  intro fuel
  induction fuel with
  | zero => intro tm tm' _ h; exact absurd h (by simp [day_loop])
  | succ f ih =>
    intro tm tm' hwf h
    have hspec := advance_day_spec tm hwf
    have hmin : (advance_day tm).tm_min = tm.tm_min := by
      rw [advance_day]; split <;> (try split) <;> rfl
    have hhour : (advance_day tm).tm_hour = tm.tm_hour := by
      rw [advance_day]; split <;> (try split) <;> rfl
    rw [day_loop] at h
    by_cases hv : VALID_DATE job (advance_day tm).tm_mday (advance_day tm).tm_wday
        (advance_day tm).tm_mon = true
    · rw [if_pos hv] at h
      obtain rfl := Option.some.inj h
      have hd := hspec.1
      exact ⟨by omega, hmin, hhour⟩
    · rw [if_neg hv] at h
      have hrec := ih (advance_day tm) tm' hspec.2 h
      have hd := hspec.1
      have hd2 := hrec.1
      refine ⟨by omega, ?_, ?_⟩
      · rw [hrec.2.1, hmin]
      · rw [hrec.2.2, hhour]

/-- The day phase in terms of the fuelled loop. -/
theorem day_phase_some_dse (job : Job) (tm tm' : Tm) (hwf : date_wf tm)
    (h : day_phase job tm = some tm') :
    days_since_epoch tm + 1 ≤ days_since_epoch tm' ∧
      tm'.tm_min = tm.tm_min ∧ tm'.tm_hour = tm.tm_hour := by
  rw [day_phase] at h
  exact day_loop_some_dse job MAX_LOOKAHEAD tm tm' hwf h

/-- Whatever the hour phase produces lies at or after the next full hour
of its input. -/
theorem hour_phase_bound (job : Job) (tm2 : Tm) (ta : Bool) (tm' : Tm)
    (hdwf : date_wf tm2) (hh23 : tm2.tm_hour ≤ 23)
    (hup : hour_phase job tm2 ta = some tm') :
    days_since_epoch tm2 * 1440 + (tm2.tm_hour + 1) * 60 ≤ time_of tm' := by
  have hday : ∀ tmx : Tm, date_wf tmx → days_since_epoch tmx = days_since_epoch tm2 →
      day_phase job tmx = some tm' →
      days_since_epoch tm2 * 1440 + (tm2.tm_hour + 1) * 60 ≤ time_of tm' := by
    intro tmx hwfx hdx hx
    have hres := day_phase_some_dse job tmx tm' hwfx hx
    have h1 := hres.1
    rw [hdx] at h1
    rw [time_of]
    omega
  rw [hour_phase] at hup
  by_cases hta : ta = true
  · rw [if_pos hta] at hup
    by_cases hhl : job.hours &&& highMask (tm2.tm_hour + 1) ≠ 0
    · rw [if_pos hhl] at hup
      obtain rfl := Option.some.inj hup
      have hb := (ffs_and_highMask job.hours (tm2.tm_hour + 1) hhl).1
      rw [time_of]
      have hdse : days_since_epoch
          { tm2 with tm_hour := ffs (job.hours &&& highMask (tm2.tm_hour + 1)) - 1 } =
          days_since_epoch tm2 := rfl
      rw [hdse]
      dsimp only
      omega
    · rw [if_neg hhl] at hup
      exact hday { tm2 with tm_hour := ffs job.hours - 1 } hdwf rfl hup
  · rw [if_neg hta] at hup
    exact hday { tm2 with tm_hour := ffs job.hours - 1 } hdwf rfl hup

/-- The case split used by C5: when neither early exit of update_tm
fires, the function is exactly the day phase started from the input
date with the fall-through minute and hour. -/
theorem update_tm_day_axis (job : Job) (tm : Tm) (h : reaches_day_axis job tm = true) :
    update_tm job tm = day_phase job
      { tm with tm_min := ffs job.minutes - 1, tm_hour := ffs job.hours - 1 } := by
  simp only [reaches_day_axis, Bool.and_eq_true, Bool.not_eq_true'] at h
  obtain ⟨hA, hB⟩ := h
  simp only [update_tm]
  by_cases hta : VALID_DATE job tm.tm_mday tm.tm_wday tm.tm_mon = true
  · have hhl : job.hours &&& highMask (tm.tm_hour + 1) = 0 := by
      rw [hta] at hB
      simpa using hB
    by_cases hVH : VALID_HOUR job tm.tm_hour = true
    · have hml : job.minutes &&& highMask (tm.tm_min + 1) = 0 := by
        rw [hta, hVH] at hA
        simpa using hA
      rw [if_pos (by rw [hta, hVH]; rfl : (VALID_DATE job tm.tm_mday tm.tm_wday
        tm.tm_mon && VALID_HOUR job tm.tm_hour) = true)]
      rw [if_neg (by simp [hml])]
      rw [hour_phase, if_pos hta]
      rw [if_neg (by simpa using hhl)]
    · rw [if_neg (by simp [Bool.and_eq_true, hVH])]
      rw [hour_phase, if_pos hta]
      rw [if_neg (by simpa using hhl)]
  · rw [if_neg (by simp [Bool.and_eq_true, hta])]
    rw [hour_phase, if_neg hta]

theorem advance_day_date_eq (a b : Tm) (h : date_eq a b) :
    date_eq (advance_day a) (advance_day b) := by
  obtain ⟨h1, h2, h3, h4⟩ := h
  unfold advance_day date_eq
  rw [h1, h2, h3, h4]
  split_ifs <;> exact ⟨rfl, rfl, rfl, rfl⟩

theorem iterate_advance_date_eq (a b : Tm) (h : date_eq a b) :
    ∀ k, date_eq (advance_day^[k] a) (advance_day^[k] b) := by
  intro k
  induction k with
  | zero => simpa using h
  | succ n ih =>
    rw [Function.iterate_succ_apply', Function.iterate_succ_apply']
    exact advance_day_date_eq _ _ ih

/-- Two jobs whose date predicates agree on all well-formed dates drive
the day loop identically. -/
theorem day_loop_congr (J1 J2 : Job)
    (hvd : ∀ t : Tm, date_wf t →
      VALID_DATE J1 t.tm_mday t.tm_wday t.tm_mon =
        VALID_DATE J2 t.tm_mday t.tm_wday t.tm_mon) :
    ∀ fuel t, date_wf t → day_loop J1 fuel t = day_loop J2 fuel t := by
  intro fuel
  induction fuel with
  | zero => intro t _; rfl
  | succ f ih =>
    intro t ht
    have hwf' := (advance_day_spec t ht).2
    simp only [day_loop]
    rw [hvd (advance_day t) hwf']
    by_cases hv : VALID_DATE J2 (advance_day t).tm_mday (advance_day t).tm_wday
        (advance_day t).tm_mon = true
    · rw [if_pos hv, if_pos hv]
    · rw [if_neg hv, if_neg hv]
      exact ih (advance_day t) hwf'

theorem hour_phase_congr (J1 J2 : Job) (hh : J1.hours = J2.hours)
    (hvd : ∀ t : Tm, date_wf t →
      VALID_DATE J1 t.tm_mday t.tm_wday t.tm_mon =
        VALID_DATE J2 t.tm_mday t.tm_wday t.tm_mon)
    (t : Tm) (ta : Bool) (ht : date_wf t) :
    hour_phase J1 t ta = hour_phase J2 t ta := by
  simp only [hour_phase, day_phase, hh]
  by_cases hta : ta = true
  · rw [if_pos hta, if_pos hta]
    by_cases hhl : J2.hours &&& highMask (t.tm_hour + 1) ≠ 0
    · rw [if_pos hhl, if_pos hhl]
    · rw [if_neg hhl, if_neg hhl]
      exact day_loop_congr J1 J2 hvd MAX_LOOKAHEAD
        { t with tm_hour := ffs J2.hours - 1 } ht
  · rw [if_neg hta, if_neg hta]
    exact day_loop_congr J1 J2 hvd MAX_LOOKAHEAD
      { t with tm_hour := ffs J2.hours - 1 } ht

/-- Two jobs that differ only in masks with identical behaviour on all
reachable inputs make update_tm agree. -/
theorem update_tm_congr (J1 J2 : Job) (hm : J1.minutes = J2.minutes)
    (hh : J1.hours = J2.hours)
    (hvd : ∀ t : Tm, date_wf t →
      VALID_DATE J1 t.tm_mday t.tm_wday t.tm_mon =
        VALID_DATE J2 t.tm_mday t.tm_wday t.tm_mon)
    (t : Tm) (ht : date_wf t) : update_tm J1 t = update_tm J2 t := by
  have hvh : VALID_HOUR J1 t.tm_hour = VALID_HOUR J2 t.tm_hour := by
    rw [VALID_HOUR, VALID_HOUR, hh]
  simp only [update_tm, hm, hvd t ht, hvh]
  split_ifs <;> first
    | rfl
    | exact hour_phase_congr J1 J2 hh hvd _ _ ht

/-- The coerced bare-star day-of-month mask and the explicit 1-31 mask
agree on every day of month a well-formed date can carry. -/
theorem star_range_valid_eq (mins hrs mons : Nat) :
    ∀ t : Tm, date_wf t →
      VALID_DATE (star_mdays_job mins hrs mons) t.tm_mday t.tm_wday t.tm_mon =
        VALID_DATE (range_mdays_job mins hrs mons) t.tm_mday t.tm_wday t.tm_mon := by
  intro t ht
  obtain ⟨h1, h2, _⟩ := ht
  have hle : t.tm_mday ≤ 31 := Nat.le_trans h2 (days_in_month_le_31 _ _)
  simp only [VALID_DATE, VALID_DAY, VALID_MDAY, VALID_WDAY, VALID_MONTH,
    star_mdays_job, range_mdays_job]
  have hm64 : bitSet mask64 t.tm_mday = true := by
    rw [bitSet_eq_testBit, mask64, Nat.testBit_two_pow_sub_one]
    simp
    omega
  have hrng : bitSet (range_bits 1 31 1) t.tm_mday = true := by
    rw [bitSet_eq_testBit,
      show range_bits 1 31 1 = 2 ^ 1 * (2 ^ 31 - 1) by decide,
      Nat.testBit_mul_pow_two, Nat.testBit_two_pow_sub_one]
    simp
    omega
  rw [hm64, hrng]

/-- The day-31-of-February job can never see a valid date on any
well-formed date. -/
theorem feb31_invalid (t : Tm)
    (h : t.tm_mday ≤ days_in_month t.tm_mon (1900 + (t.tm_year : Int))) :
    VALID_DATE jobFeb31 t.tm_mday t.tm_wday t.tm_mon = false := by
  simp only [VALID_DATE, VALID_DAY, VALID_MDAY, VALID_WDAY, VALID_MONTH, jobFeb31]
  rw [bitSet_eq_testBit, bitSet_eq_testBit, bitSet_eq_testBit]
  by_cases hd : t.tm_mday = 31
  · by_cases hm : t.tm_mon = 1
    · exfalso
      rw [hd, hm] at h
      have hc : days_in_month 1 (1900 + (t.tm_year : Int)) ≤ 29 := by
        rw [days_in_month]
        simp only [ne_eq, not_true_eq_false, if_false]
        split <;> omega
      omega
    · rw [show (2 : Nat) = 2 ^ 1 from rfl, Nat.testBit_two_pow]
      simp [Ne.symm hm]
  · rw [Nat.testBit_two_pow]
    simp [Ne.symm hd, Nat.zero_testBit]

theorem feb31_iter_invalid (k : Nat) :
    VALID_DATE jobFeb31 (advance_day^[k] tmEpoch).tm_mday
      (advance_day^[k] tmEpoch).tm_wday (advance_day^[k] tmEpoch).tm_mon = false := by
  have hwf := iterate_advance_wf tmEpoch (by
    refine ⟨by decide, ?_, by decide⟩
    show (1 : Nat) ≤ days_in_month 0 1900
    decide) k
  exact feb31_invalid _ hwf.2.1

/- Lemmas about the command decoder. -/

theorem decode_go_no_pct :
    ∀ (l acc : List Char) (esc : Bool), '%' ∉ l →
      decode_go acc esc l = acc.reverse ++ l := by
  intro l
  induction l with
  | nil => intro acc esc _; simp [decode_go]
  | cons c cs ih =>
    intro acc esc h
    have hc : ¬c = '%' := fun he => h (he ▸ List.mem_cons_self c cs)
    have hcs : '%' ∉ cs := fun hm => h (List.mem_cons_of_mem _ hm)
    rw [decode_go, if_neg hc, ih (c :: acc) _ hcs]
    simp

theorem decode_no_pct (l : List Char) (h : '%' ∉ l) : decode l = l := by
  rw [decode, decode_go_no_pct l [] false h]
  simp

theorem split_stdin_no_nl : ∀ l : List Char, '\n' ∉ l → split_stdin l = l := by
  intro l
  induction l with
  | nil => intro _; rfl
  | cons c cs ih =>
    intro h
    have hc : ¬c = '\n' := fun he => h (he ▸ List.mem_cons_self c cs)
    have hcs : '\n' ∉ cs := fun hm => h (List.mem_cons_of_mem _ hm)
    rw [split_stdin, if_neg hc, ih hcs]

theorem command_str_no_nul (l : List Char) (h : '\x00' ∉ l) : command_str l = l := by
  rw [command_str, List.takeWhile_eq_self_iff]
  intro x hx
  have hne : x ≠ '\x00' := by
    intro he
    exact h (he ▸ hx)
  simpa using hne

theorem infile_data_no_nul (l : List Char) (h : '\x00' ∉ l) : infile_data l = [] := by
  rw [infile_data]
  have hd : l.dropWhile (fun c => c != '\x00') = [] := by
    rw [List.dropWhile_eq_nil_iff]
    intro x hx
    have hne : x ≠ '\x00' := by
      intro he
      exact h (he ▸ hx)
    simpa using hne
  rw [hd]
  rfl

/- Lemma about the reaper's clearing scan. -/

theorem clear_pid_spec :
    ∀ (js : List Job) (p : Nat), (∃ j ∈ js, j.pid = p) →
      ∃ i, ∃ hi : i < js.length, (js.get ⟨i, hi⟩).pid = p ∧
        clear_pid js p = js.set i { js.get ⟨i, hi⟩ with pid := 0 } := by
  intro js
  induction js with
  | nil => intro p h; simp at h
  | cons j rest ih =>
    intro p h
    by_cases hj : j.pid = p
    · exact ⟨0, by simp, hj, by simp [clear_pid, hj]⟩
    · have hrest : ∃ x ∈ rest, x.pid = p := by
        obtain ⟨x, hx, hxp⟩ := h
        rcases List.mem_cons.1 hx with rfl | hxr
        · exact absurd hxp hj
        · exact ⟨x, hxr, hxp⟩
      obtain ⟨i, hi, hp, he⟩ := ih p hrest
      refine ⟨i + 1, by simpa using Nat.succ_lt_succ hi, ?_, ?_⟩
      · simpa using hp
      · simp only [clear_pid, if_neg hj]
        rw [he]
        rfl

/- The claim theorems. -/

/-- C1 counterexample: the command is not copied verbatim.  On the line
remainder a percent b, parse_command decodes the percent to a newline,
then splits at that newline: the stored buffer is a NUL b, the command
the child shell receives is just a, and the stdin data is b. -/
theorem C1_counterexample :
    parse_command ('a' :: '%' :: 'b' :: []) = some ('a' :: '\x00' :: 'b' :: []) ∧
    command_str ('a' :: '\x00' :: 'b' :: []) = ['a'] ∧
    infile_data ('a' :: '\x00' :: 'b' :: []) = ['b'] ∧
    parse_command ('a' :: '%' :: 'b' :: []) ≠ some ('a' :: '%' :: 'b' :: []) := by
  decide

/-- C1 (amended): parse_command decodes the remainder, turning every
unescaped percent into a newline and splitting command from stdin data
at the first newline; in particular, when the remainder contains no
percent the command is copied verbatim and the stdin data is empty. -/
theorem C1_command_verbatim_without_percent (line : List Char)
    (hne : line ≠ []) (hp : '%' ∉ line) (hn : '\n' ∉ line) (hz : '\x00' ∉ line) :
    parse_command line = some line ∧ command_str line = line ∧
      infile_data line = [] := by
  refine ⟨?_, command_str_no_nul line hz, infile_data_no_nul line hz⟩
  rw [parse_command, if_neg (by simpa using hne)]
  rw [decode_no_pct line hp, split_stdin_no_nl line hn]

/-- Witness for C1: a percent-free remainder parses verbatim. -/
theorem C1_witness :
    parse_command ('e' :: 'c' :: 'h' :: 'o' :: []) =
        some ('e' :: 'c' :: 'h' :: 'o' :: []) ∧
      command_str ('e' :: 'c' :: 'h' :: 'o' :: []) = ('e' :: 'c' :: 'h' :: 'o' :: []) ∧
      infile_data ('e' :: 'c' :: 'h' :: 'o' :: []) = [] :=
  C1_command_verbatim_without_percent ('e' :: 'c' :: 'h' :: 'o' :: [])
    (by decide) (by decide) (by decide) (by decide)

/-- C2 evidence: the crontab line star 5 star star star x parses to a
job whose minutes mask is all 64 ones.  At 1900-01-05 05:59 local time
update_job picks minute bit 60 (a bit outside the minute domain that
the all-ones fill set), hands mktime minute 60 of hour 5, and stores
06:00; the stored time decomposes to hour 6, whose hours-mask bit is
clear, so the written time does not satisfy VALID_HOUR as the spec
requires. -/
theorem C2_mask_invariant_violated :
    parse_line 1 ("* 5 * * * x".toList) = ParseResult.job jobStarHour5 ∧
    update_tm jobStarHour5 tmJan5_0559 = some tmAfterC2 ∧
    tmAfterC2.tm_min = 60 ∧
    mktime_sec tmAfterC2 = 367200 ∧
    (decompose (mktime_sec tmAfterC2)).tm_hour = 6 ∧
    VALID_HOUR jobStarHour5 ((decompose (mktime_sec tmAfterC2)).tm_hour) = false := by
  decide

/-- C3: whenever update_job writes a time, that time is strictly greater
than the instant supplied, for every job and every well-formed
broken-down input with seconds below one minute; iterating update_job on
its own output therefore strictly increases the stored time. -/
theorem C3_update_time_strictly_increases (job : Job) (tm tm' : Tm) (sec : Nat)
    (hwf : tm_wf tm) (hsec : sec ≤ 59)
    (hup : update_tm job tm = some tm') :
    mktime_sec tm + sec < mktime_sec tm' := by
  obtain ⟨hmin59, hhour23, hdwf⟩ := hwf
  have hmain : hour_phase job { tm with tm_min := ffs job.minutes - 1 }
      (VALID_DATE job tm.tm_mday tm.tm_wday tm.tm_mon) = some tm' →
      mktime_sec tm + sec < mktime_sec tm' := by
    intro hx
    have hbound := hour_phase_bound job { tm with tm_min := ffs job.minutes - 1 }
      (VALID_DATE job tm.tm_mday tm.tm_wday tm.tm_mon) tm' hdwf hhour23 hx
    have e1 : days_since_epoch { tm with tm_min := ffs job.minutes - 1 } =
        days_since_epoch tm := rfl
    rw [e1] at hbound
    dsimp only at hbound
    rw [mktime_sec, mktime_sec, time_of]
    omega
  simp only [update_tm] at hup
  by_cases hc : (VALID_DATE job tm.tm_mday tm.tm_wday tm.tm_mon &&
      VALID_HOUR job tm.tm_hour) = true
  · rw [if_pos hc] at hup
    by_cases hml : job.minutes &&& highMask (tm.tm_min + 1) ≠ 0
    · rw [if_pos hml] at hup
      obtain rfl := Option.some.inj hup
      have hb := (ffs_and_highMask job.minutes (tm.tm_min + 1) hml).1
      rw [mktime_sec, mktime_sec, time_of, time_of]
      have hdse : days_since_epoch
          { tm with tm_min := ffs (job.minutes &&& highMask (tm.tm_min + 1)) - 1 } =
          days_since_epoch tm := rfl
      rw [hdse]
      dsimp only
      omega
    · rw [if_neg hml] at hup
      exact hmain hup
  · rw [if_neg hc] at hup
    exact hmain hup

/-- The epoch date is well-formed. -/
theorem tmEpoch_wf : date_wf tmEpoch := by
  refine ⟨by decide, ?_, by decide⟩
  show (1 : Nat) ≤ days_in_month 0 1900
  decide

/-- The anchor 1900-01-05 05:59 is a well-formed broken-down time. -/
theorem tmJan5_0559_wf : tm_wf tmJan5_0559 := by
  refine ⟨by decide, by decide, by decide, ?_, by decide⟩
  show (5 : Nat) ≤ days_in_month 0 1900
  decide

/-- Witness for C3 at a concrete job and instant. -/
theorem C3_witness : mktime_sec tmJan5_0559 + 30 < mktime_sec tmAfterC2 :=
  C3_update_time_strictly_increases jobStarHour5 tmJan5_0559 tmAfterC2 30
    tmJan5_0559_wf (by decide) (by decide)

/-- C4 counterexample: with the other four fields equal, the schedule
with a bare star in minutes and the one with the explicit range 0-59
compute different fire instants from the same anchor.  At 1900-01-05
05:59 the star schedule (minutes mask all 64 ones) fires at 06:00 while
the 0-59 schedule fires the next day at 05:00. -/
theorem C4_counterexample :
    parse_line 1 ("* 5 * * * x".toList) = ParseResult.job jobStarHour5 ∧
    parse_line 1 ("0-59 5 * * * x".toList) = ParseResult.job jobRange59Hour5 ∧
    (update_tm jobStarHour5 tmJan5_0559).map mktime_sec = some 367200 ∧
    (update_tm jobRange59Hour5 tmJan5_0559).map mktime_sec = some 450000 ∧
    (update_tm jobStarHour5 tmJan5_0559).map mktime_sec ≠
      (update_tm jobRange59Hour5 tmJan5_0559).map mktime_sec := by
  decide

/-- C4 (amended): the identity survives only for the day-of-month
field, and only when the weekday field is also unrestricted: a bare
star there (mdays parsed empty, wdays empty, so mdays is filled with
all ones) computes the same result as the explicit range 1-31 at every
well-formed anchor, the other four fields held equal.  For minutes and
hours the identity fails because the all-ones fill sets bits beyond the
domain (see the counterexample), and for day-of-month it fails when
weekdays are restricted because day validity is an mday/wday
disjunction. -/
theorem C4_star_mday_equals_full_range (mins hrs mons : Nat) (tm : Tm)
    (hwf : date_wf tm) :
    parse_field 1 31 no_aliases ('*' :: ' ' :: []) = some (0, []) ∧
    parse_field 1 31 no_aliases ("1-31 ".toList) = some (range_bits 1 31 1, []) ∧
    update_tm (star_mdays_job mins hrs mons) tm =
      update_tm (range_mdays_job mins hrs mons) tm := by
  refine ⟨by decide, by decide, ?_⟩
  exact update_tm_congr (star_mdays_job mins hrs mons) (range_mdays_job mins hrs mons)
    rfl rfl (star_range_valid_eq mins hrs mons) tm hwf

/-- Witness for C4 at a concrete schedule and anchor. -/
theorem C4_witness :
    parse_field 1 31 no_aliases ('*' :: ' ' :: []) = some (0, []) ∧
    parse_field 1 31 no_aliases ("1-31 ".toList) = some (range_bits 1 31 1, []) ∧
    update_tm (star_mdays_job 1 1 65535) tmEpoch =
      update_tm (range_mdays_job 1 1 65535) tmEpoch :=
  C4_star_mday_equals_full_range 1 1 65535 tmEpoch tmEpoch_wf

/-- C5: when update_job reaches the day axis and every one of the 2000
day-advances lands on an invalid date, the function logs the warning,
removes the job by copying the last job into its slot and shortening
the table by one, and writes no time. -/
theorem C5_lookahead_eviction (js : List Job) (idx : Nat) (job : Job) (now : Tm)
    (hjob : js.get? idx = some job)
    (hreach : reaches_day_axis job now = true)
    (hfail : ∀ k, 1 ≤ k → k ≤ MAX_LOOKAHEAD →
      VALID_DATE job (advance_day^[k] now).tm_mday (advance_day^[k] now).tm_wday
        (advance_day^[k] now).tm_mon = false) :
    update_job js idx now =
      ⟨(js.set idx (js.getD (js.length - 1) job)).take (js.length - 1),
        none, true⟩ := by
  have hnone : update_tm job now = none := by
    rw [update_tm_day_axis job now hreach, day_phase]
    apply day_loop_none
    intro k hk1 hk2
    have hde : date_eq
        { now with tm_min := ffs job.minutes - 1, tm_hour := ffs job.hours - 1 }
        now := ⟨rfl, rfl, rfl, rfl⟩
    obtain ⟨e1, e2, _, e4⟩ := iterate_advance_date_eq _ _ hde k
    rw [e1, e2, e4]
    exact hfail k hk1 hk2
  simp only [update_job, hjob, hnone]

/-- Witness for C5: a table of two jobs whose first entry demands the
31st of February is reduced to the second job, with no time written and
the warning raised. -/
theorem C5_witness :
    update_job [jobFeb31, jobOther] 0 tmEpoch = ⟨[jobOther], none, true⟩ := by
  have h := C5_lookahead_eviction [jobFeb31, jobOther] 0 jobFeb31 tmEpoch rfl
    (by decide) (fun k hk1 _ => feb31_iter_invalid k)
  exact h.trans (by decide)

/-- C6 counterexample: no event of the main dispatcher maps to a
configuration reload, and SIGHUP has no handler installed; in
particular the event a signal surfaces as performs no action. -/
theorem C6_counterexample :
    dispatch_event CEvent.reached_target ≠ DispatchAction.reload_config ∧
    dispatch_event CEvent.skipped_target ≠ DispatchAction.reload_config ∧
    dispatch_event CEvent.caught_signal ≠ DispatchAction.reload_config ∧
    dispatch_event CEvent.time_changed ≠ DispatchAction.reload_config ∧
    dispatch_event CEvent.nothing_happened ≠ DispatchAction.reload_config ∧
    has_handler Sig.SIGHUP = false := by
  decide

/-- C6 (amended): the daemon installs a handler only for SIGCHLD;
SIGHUP, SIGTERM, SIGINT and SIGQUIT keep their default dispositions,
and the event dispatcher has no reload branch: a caught signal falls to
the default case and leaves the job table untouched. -/
theorem C6_no_sighup_reload_branch :
    dispatch_event CEvent.caught_signal = DispatchAction.no_action ∧
    has_handler Sig.SIGCHLD = true ∧
    has_handler Sig.SIGHUP = false ∧
    has_handler Sig.SIGTERM = false ∧
    has_handler Sig.SIGINT = false ∧
    has_handler Sig.SIGQUIT = false := by
  decide

/-- C7 counterexample: the line 0 0 star star 7 x stores a job whose
wdays keeps bit 7 set after the coercion (129, bits 0 and 7), so bit 7
is folded into bit 0 but not cleared. -/
theorem C7_counterexample :
    parse_line 1 ("0 0 * * 7 x".toList) = ParseResult.job
      { minutes := 1, time := 0, command := ['x'], hours := 1, mdays := 0,
        pid := 0, months := 65535, wdays := 129, lineno := 1 } ∧
    Nat.testBit (129 : Nat) 7 = true := by
  decide

/-- C7 (amended): parse_line's weekday coercion sets bit 0 of wdays
whenever bit 7 was set by the field grammar, and leaves every other
bit, bit 7 included, exactly as parsed; bit 7 is not cleared. -/
theorem C7_fold_sets_bit0_keeps_bit7 (w : Nat) :
    Nat.testBit (fold_wdays w) 0 = (Nat.testBit w 0 || Nat.testBit w 7) ∧
    ∀ i, 1 ≤ i → Nat.testBit (fold_wdays w) i = Nat.testBit w i := by
  have h1 : ∀ i, 1 ≤ i → Nat.testBit 1 i = false := by
    intro i hi
    rw [show (1 : Nat) = 2 ^ 0 from rfl, Nat.testBit_two_pow]
    simp
    omega
  constructor
  · rw [fold_wdays, Nat.testBit_or, Nat.testBit_and, Nat.testBit_shiftRight]
    norm_num
  · intro i hi
    rw [fold_wdays, Nat.testBit_or, Nat.testBit_and, Nat.testBit_shiftRight,
      h1 i hi]
    simp

/-- Witness for C7 at the Sunday alias bit pattern. -/
theorem C7_witness :
    Nat.testBit (fold_wdays 128) 0 = true ∧ Nat.testBit (fold_wdays 128) 7 = true := by
  have h := C7_fold_sets_bit0_keeps_bit7 128
  constructor
  · rw [h.1]
    decide
  · rw [h.2 7 (by decide)]
    decide

/-- C8 counterexample: a child reported as stopped does clear the
owning job's pid: the stopped branch of reap_zombies falls through to
the same clearing scan as exited and signaled children. -/
theorem C8_counterexample :
    reap_one [{ jobOther with pid := 7 }] 7 (ChildStatus.stopped 19) =
      [{ jobOther with pid := 0 }] ∧
    reap_one [{ jobOther with pid := 7 }] 7 (ChildStatus.stopped 19) ≠
      [{ jobOther with pid := 7 }] := by
  decide

/-- C8 (amended): for a stopped child the reap loop behaves exactly as
for exited and signaled ones: the first job holding the reaped pid has
its pid reset to 0; only an unrecognized status skips the clearing. -/
theorem C8_stopped_child_clears_pid (js : List Job) (p sig : Nat)
    (h : ∃ j ∈ js, j.pid = p) :
    ∃ i, ∃ hi : i < js.length, (js.get ⟨i, hi⟩).pid = p ∧
      reap_one js p (ChildStatus.stopped sig) =
        js.set i { js.get ⟨i, hi⟩ with pid := 0 } := by
  have hc := clear_pid_spec js p h
  simpa [reap_one] using hc

/-- Witness for C8 on a one-job table. -/
theorem C8_witness :
    ∃ i, ∃ hi : i < ([{ jobOther with pid := 7 }] : List Job).length,
      (([{ jobOther with pid := 7 }] : List Job).get ⟨i, hi⟩).pid = 7 ∧
      reap_one [{ jobOther with pid := 7 }] 7 (ChildStatus.stopped 19) =
        ([{ jobOther with pid := 7 }] : List Job).set i
          { ([{ jobOther with pid := 7 }] : List Job).get ⟨i, hi⟩ with pid := 0 } :=
  C8_stopped_child_clears_pid [{ jobOther with pid := 7 }] 7 19
    ⟨{ jobOther with pid := 7 }, List.mem_cons_self _ _, rfl⟩

/-- C9: the leap-year predicate is the Gregorian rule on the full year
with C truncating remainder, and days_in_month yields 31 for January,
March, May, July, August, October and December, 30 for April, June,
September and November, and 28 plus the leap bit for February, for
every month index up to 11. -/
theorem C9_calendar (y : Int) (m : Nat) (hm : m ≤ 11) :
    (is_leap_year y = true ↔
      (y.tmod 4 = 0 ∧ (y.tmod 100 ≠ 0 ∨ y.tmod 400 = 0))) ∧
    days_in_month m y =
      (if m = 1 then 28 + (if is_leap_year y then 1 else 0)
       else if m = 0 ∨ m = 2 ∨ m = 4 ∨ m = 6 ∨ m = 7 ∨ m = 9 ∨ m = 11 then 31
       else 30) := by
  constructor
  · simp [is_leap_year]
  · interval_cases m <;> rfl

/-- Witness for C9 in a leap year. -/
theorem C9_witness : days_in_month 1 2024 = 29 ∧ days_in_month 3 2024 = 30 := by
  have h1 := (C9_calendar 2024 1 (by decide)).2
  have h3 := (C9_calendar 2024 3 (by decide)).2
  constructor
  · rw [h1]
    decide
  · rw [h3]
    decide

/-- C10: the stdin data materialized for the child spawned by
run_job(idx) always comes from the trailing data of the command buffer
of the job at index 0, because the child invokes create_infile with the
constant 0; it is not taken from the job being launched. -/
theorem C10_stdin_from_job_zero (js : List Job) (idx : Nat) (j0 : Job)
    (h0 : js.get? 0 = some j0) :
    run_job_stdin js idx = some (infile_data j0.command) ∧
    ∀ j1 : Job, js.get? idx = some j1 →
      infile_data j1.command ≠ infile_data j0.command →
      run_job_stdin js idx ≠ some (infile_data j1.command) := by
  constructor
  · rw [run_job_stdin, create_infile, h0]
    rfl
  · intro j1 _ hne
    rw [run_job_stdin, create_infile, h0]
    show some (infile_data j0.command) ≠ some (infile_data j1.command)
    intro he
    exact hne (Option.some.inj he).symm

/-- Witness for C10: two parsed jobs with different stdin data; the job
at index 1 is launched with job 0's data. -/
theorem C10_witness :
    parse_line 1 ("0 0 * * * a%x".toList) = ParseResult.job jobPctA ∧
    parse_line 1 ("0 0 * * * b%y".toList) = ParseResult.job jobPctB ∧
    run_job_stdin [jobPctA, jobPctB] 1 = some ['x'] ∧
    run_job_stdin [jobPctA, jobPctB] 1 ≠ some (infile_data jobPctB.command) := by
  refine ⟨by decide, by decide, ?_, ?_⟩
  · have h := (C10_stdin_from_job_zero [jobPctA, jobPctB] 1 jobPctA rfl).1
    rw [h]
    decide
  · exact (C10_stdin_from_job_zero [jobPctA, jobPctB] 1 jobPctA rfl).2 jobPctB rfl
      (by decide)
